import Mathlib

/-
Verification of the snake game core (src/snake.ts).

The board is a list of rows of integer cells.  A cell holds -1 for the
target, 0 for empty, and a positive integer for a snake segment that will
expire in that many turns.  Randomness (Math.random via randomIndex) is
modelled by an explicit list of (row, column) picks threaded through
placeRandomly; a run of the source program corresponds to one such list.
A pick outside the board's bounds, or an exhausted pick list, models a run
of the rejection sampler that has not yet returned; those runs are mapped
to a failure value, since they produce no observable result.
-/

abbrev Board := List (List Int)

inductive Direction where
  | north
  | south
  | east
  | west
deriving DecidableEq

structure Game where
  board : Board
  length : Int
deriving DecidableEq

/-- JS `findIndex` specialised to the source's use on a row: the index of
the first cell equal to `t`, or -1 when there is none. -/
def findIndexJS : List Int → Int → Int
  | [], _ => -1
  | v :: vs, t =>
    if v = t then 0
    else
      let r := findIndexJS vs t
      if r = -1 then -1 else r + 1

/-- The head search of `advance`: the nested `findIndex` loop that scans
rows for the first cell equal to `t`.  Returns (-1, -1) when no cell
matches, which is what the source's two `findIndex` sentinels amount to. -/
def findHead : Board → Int → Int × Int
  | [], _ => (-1, -1)
  | row :: rest, t =>
    let c := findIndexJS row t
    if c = -1 then
      let p := findHead rest t
      (if p.1 = -1 then -1 else p.1 + 1, p.2)
    else (0, c)

/-- `b[r][c]` for natural indices; `none` models JS `undefined`. -/
def getCellN (b : Board) (r c : Nat) : Option Int :=
  match b[r]? with
  | some row => row[c]?
  | none => none

/-- `b[r][c]` for integer indices: a negative index reads `undefined`. -/
def getCell (b : Board) (r c : Int) : Option Int :=
  if 0 ≤ r ∧ 0 ≤ c then getCellN b r.toNat c.toNat else none

/-- `b[r][c] = v` for in-range indices (every write performed by the
source is in range; see the advance safety theorem). -/
def setCell (b : Board) (r c : Nat) (v : Int) : Board :=
  match b[r]? with
  | some row => b.set r (row.set c v)
  | none => b

/-- One step of tail decay on a single cell. -/
def tick (v : Int) : Int := if 0 < v then v - 1 else v

/-- The decay loop of `advance`: every positive cell is decreased by 1. -/
def decay (b : Board) : Board := b.map (fun row => row.map tick)

/-- Number of cells of the board holding exactly `t`. -/
def countCell (b : Board) (t : Int) : Nat :=
  b.flatten.countP (fun v => decide (v = t))

/-- Number of occupied (positive) cells of the board. -/
def countPos (b : Board) : Nat :=
  b.flatten.countP (fun v => decide (0 < v))

/-- `placeRandomly`: repeatedly draw a random cell (one pick per attempt)
until an empty cell is found, then overwrite it with `value`.  Returns the
updated game and the unused picks, or `none` when the modelled run does
not return (pick list exhausted or a pick that `randomIndex` cannot
produce). -/
def placeRandomly (g : Game) (value : Int) : List (Nat × Nat) → Option (Game × List (Nat × Nat))
  | [] => none
  | (ri, ci) :: rest =>
    match g.board[ri]? with
    | none => none
    | some row =>
      match row[ci]? with
      | none => none
      | some v =>
        if v = 0 then some (⟨setCell g.board ri ci value, g.length⟩, rest)
        else placeRandomly g value rest

/-- `init`: build an all-zero height × width board with length 1, then
place the snake (value `game.length`, i.e. 1) and the target (-1).  In the
source `height` defaults to `width` at the call site. -/
def init (width height : Nat) (picks : List (Nat × Nat)) : Option Game :=
  let g : Game := ⟨List.replicate height (List.replicate width 0), 1⟩
  match placeRandomly g g.length picks with
  | none => none
  | some (g1, rest) =>
    match placeRandomly g1 (-1) rest with
    | none => none
    | some (g2, _) => some g2

/-- Position of the head as computed by `advance`'s search. -/
def headPos (g : Game) : Int × Int := findHead g.board g.length

/-- Offset a position one cell in the given direction (North: row-1,
South: row+1, East: column+1, West: column-1). -/
def offsetPos (p : Int × Int) (d : Direction) : Int × Int :=
  match d with
  | .north => (p.1 - 1, p.2)
  | .south => (p.1 + 1, p.2)
  | .east => (p.1, p.2 + 1)
  | .west => (p.1, p.2 - 1)

/-- Candidate new head position computed by `advance`. -/
def newPos (g : Game) (d : Direction) : Int × Int := offsetPos (headPos g) d

/-- Negation of the source's wall test
`r < 0 || c < 0 || r >= board.length || c >= board[0].length`. -/
def inBounds (b : Board) (p : Int × Int) : Prop :=
  0 ≤ p.1 ∧ 0 ≤ p.2 ∧ p.1 < (b.length : Int) ∧ p.2 < ((b.headD []).length : Int)

instance (b : Board) (p : Int × Int) : Decidable (inBounds b p) := by
  unfold inBounds
  infer_instance

/-- Outcome tag of a run of `advance`: normal return, the two thrown
collisions, an out-of-bounds cell access (JS would read `undefined`; shown
unreachable for well-formed boards), and a `placeRandomly` run that does
not return. -/
inductive AdvStatus where
  | ok
  | wall
  | tail
  | oob
  | randFail
deriving DecidableEq

/-- `advance`: one move in the given direction.  The returned game is the
state at the point the source returns or throws; both collisions are
thrown before any mutation. -/
def advance (g : Game) (d : Direction) (picks : List (Nat × Nat)) : AdvStatus × Game :=
  let np := newPos g d
  if inBounds g.board np then
    match getCell g.board np.1 np.2 with
    | none => (.oob, g)
    | some v =>
      if 0 < v then (.tail, g)
      else if v = -1 then
        let g1 : Game := ⟨setCell g.board np.1.toNat np.2.toNat (g.length + 1), g.length + 1⟩
        match placeRandomly g1 (-1) picks with
        | some (g2, _) => (.ok, g2)
        | none => (.randFail, g1)
      else (.ok, ⟨setCell (decay g.board) np.1.toNat np.2.toNat g.length, g.length⟩)
  else (.wall, g)

/-- All rows have the length of the first row. -/
def Rect (b : Board) : Prop := ∀ row ∈ b, row.length = (b.headD []).length

instance (b : Board) : Decidable (Rect b) := by
  unfold Rect
  infer_instance

/-- States reachable from `g0` by successful `advance` calls. -/
inductive Reaches : Game → Game → Prop where
  | refl (g : Game) : Reaches g g
  | step {g0 g g' : Game} (d : Direction) (picks : List (Nat × Nat)) :
      Reaches g0 g → advance g d picks = (.ok, g') → Reaches g0 g'

/-- The state invariant maintained by the game: a unique head cell, at
most one target cell, a positive length, and no cell above the length. -/
def SnakeInv (g : Game) : Prop :=
  countCell g.board g.length = 1 ∧
  countCell g.board (-1) ≤ 1 ∧
  1 ≤ g.length ∧
  ∀ v ∈ g.board.flatten, v ≤ g.length

/-- Concrete game used by the C8 witness. -/
def gWit8 : Game := ⟨[[1, 0]], 1⟩

/-- Concrete result game used by the C8 witness. -/
def gWit8' : Game := ⟨[[1, -1]], 1⟩

/-- Concrete game used by the C1 witness. -/
def gWit1 : Game := ⟨[[1, 2, 0]], 2⟩

/-- Concrete game used by the C2 witness. -/
def gWit2 : Game := ⟨[[1, -1, 0]], 1⟩

/-- Concrete game used by the C6 witness: the result of init 2 1 with
picks (0,0) and (0,1). -/
def gWit6 : Game := ⟨[[1, -1]], 1⟩

/-- Concrete game used by the C5 witness. -/
def gWit5 : Game := ⟨[[1, -1]], 1⟩

/- Helper lemmas about the search, cell access, and counting functions. -/

theorem findIndexJS_nonneg_or (l : List Int) (t : Int) :
    findIndexJS l t = -1 ∨ 0 ≤ findIndexJS l t := by
  induction l with
  | nil => left; rfl
  | cons v vs ih =>
    by_cases hv : v = t
    · right
      simp [findIndexJS, hv]
    · rcases ih with h | h
      · left
        simp [findIndexJS, hv, h]
      · right
        have hne : findIndexJS vs t ≠ -1 := by omega
        simp only [findIndexJS, if_neg hv, if_neg hne]
        omega

theorem findIndexJS_eq_neg1_of_not_mem {l : List Int} {t : Int} (h : t ∉ l) :
    findIndexJS l t = -1 := by
  induction l with
  | nil => rfl
  | cons v vs ih =>
    have hv : v ≠ t := fun hv => h (hv ▸ List.mem_cons_self v vs)
    have hvs : t ∉ vs := fun hm => h (List.mem_cons_of_mem v hm)
    simp [findIndexJS, hv, ih hvs]

theorem findIndexJS_found {l : List Int} {t : Int} (h : t ∈ l) :
    0 ≤ findIndexJS l t ∧ l[(findIndexJS l t).toNat]? = some t := by
  induction l with
  | nil => cases h
  | cons v vs ih =>
    by_cases hv : v = t
    · constructor
      · simp [findIndexJS, hv]
      · simp [findIndexJS, hv]
    · have hm : t ∈ vs := by
        rcases List.mem_cons.mp h with h' | h'
        · exact absurd h'.symm hv
        · exact h'
      obtain ⟨hnn, hget⟩ := ih hm
      have hne : findIndexJS vs t ≠ -1 := by omega
      constructor
      · simp only [findIndexJS, if_neg hv, if_neg hne]
        omega
      · simp only [findIndexJS, if_neg hv, if_neg hne]
        have htn : (findIndexJS vs t + 1).toNat = (findIndexJS vs t).toNat + 1 := by omega
        rw [htn, List.getElem?_cons_succ]
        exact hget

theorem findHead_found {b : Board} {t : Int} (h : t ∈ b.flatten) :
    0 ≤ (findHead b t).1 ∧ 0 ≤ (findHead b t).2 ∧
      getCellN b (findHead b t).1.toNat (findHead b t).2.toNat = some t := by
  induction b with
  | nil => simp at h
  | cons row rest ih =>
    by_cases hc : findIndexJS row t = -1
    · have hrow : t ∉ row := by
        intro hm
        have := (findIndexJS_found hm).1
        omega
      have hrest : t ∈ rest.flatten := by
        rcases List.mem_flatten.mp h with ⟨l, hl, hml⟩
        rcases List.mem_cons.mp hl with h' | h'
        · exact absurd (h' ▸ hml) hrow
        · exact List.mem_flatten.mpr ⟨l, h', hml⟩
      obtain ⟨h1, h2, h3⟩ := ih hrest
      have hne : (findHead rest t).1 ≠ -1 := by omega
      refine ⟨?_, ?_, ?_⟩
      · simp only [findHead, if_pos hc, if_neg hne]
        omega
      · simp only [findHead, if_pos hc, if_neg hne]
        exact h2
      · simp only [findHead, if_pos hc, if_neg hne]
        have htn : ((findHead rest t).1 + 1).toNat = (findHead rest t).1.toNat + 1 := by omega
        simp only [htn]
        simpa [getCellN] using h3
    · have hrow : t ∈ row := by
        by_contra hm
        exact hc (findIndexJS_eq_neg1_of_not_mem hm)
      obtain ⟨hnn, hget⟩ := findIndexJS_found hrow
      refine ⟨?_, ?_, ?_⟩
      · simp [findHead, hc]
      · simp only [findHead, if_neg hc]
        exact hnn
      · simp only [findHead, if_neg hc]
        simpa [getCellN] using hget

theorem length_setCell (b : Board) (r c : Nat) (v : Int) :
    (setCell b r c v).length = b.length := by
  unfold setCell
  cases b[r]? with
  | none => rfl
  | some row => simp

theorem rowlen_setCell (b : Board) (r c : Nat) (v : Int) (i : Nat) :
    ((setCell b r c v)[i]?).map List.length = (b[i]?).map List.length := by
  unfold setCell
  cases hr : b[r]? with
  | none => rfl
  | some row =>
    by_cases hir : i = r
    · subst hir
      have hlt : i < b.length := (List.getElem?_eq_some.mp hr).1
      rw [List.getElem?_set_self hlt, hr]
      simp
    · rw [List.getElem?_set_ne (fun h => hir h.symm)]

theorem getCellN_some_parts {b : Board} {r c : Nat} {w : Int}
    (h : getCellN b r c = some w) :
    ∃ row, b[r]? = some row ∧ row[c]? = some w := by
  unfold getCellN at h
  cases hr : b[r]? with
  | none => rw [hr] at h; cases h
  | some row => rw [hr] at h; exact ⟨row, rfl, h⟩

theorem getCellN_setCell_self {b : Board} {r c : Nat} {w : Int} (v : Int)
    (h : getCellN b r c = some w) :
    getCellN (setCell b r c v) r c = some v := by
  obtain ⟨row, hr, hc⟩ := getCellN_some_parts h
  have hltr : r < b.length := (List.getElem?_eq_some.mp hr).1
  have hltc : c < row.length := (List.getElem?_eq_some.mp hc).1
  unfold setCell getCellN
  rw [hr, List.getElem?_set_self hltr]
  simp [List.getElem?_set_self hltc]

theorem getCellN_setCell_other {b : Board} (r c : Nat) (v : Int) {i j : Nat}
    (hne : i ≠ r ∨ j ≠ c) :
    getCellN (setCell b r c v) i j = getCellN b i j := by
  unfold setCell
  cases hr : b[r]? with
  | none => rfl
  | some row =>
    unfold getCellN
    by_cases hir : i = r
    · subst hir
      have hj : j ≠ c := hne.resolve_left (fun h => h rfl)
      have hlt : i < b.length := (List.getElem?_eq_some.mp hr).1
      rw [List.getElem?_set_self hlt, hr]
      simp [List.getElem?_set_ne (fun h => hj h.symm)]
    · rw [List.getElem?_set_ne (fun h => hir h.symm)]

theorem countP_set_list {l : List Int} {c : Nat} {w : Int} (p : Int → Bool) (v : Int)
    (h : l[c]? = some w) :
    (l.set c v).countP p + (if p w then 1 else 0) = l.countP p + (if p v then 1 else 0) := by
  induction l generalizing c with
  | nil => cases h
  | cons a as ih =>
    cases c with
    | zero =>
      simp only [List.getElem?_cons_zero, Option.some_inj] at h
      subst h
      simp only [List.set_cons_zero, List.countP_cons]
      omega
    | succ c' =>
      simp only [List.getElem?_cons_succ] at h
      have := ih h
      simp only [List.set_cons_succ, List.countP_cons]
      omega

theorem countP_set_board {b : Board} {r : Nat} {row : List Int} (p : Int → Bool)
    (row' : List Int) (h : b[r]? = some row) :
    (b.set r row').flatten.countP p + row.countP p
      = b.flatten.countP p + row'.countP p := by
  induction b generalizing r with
  | nil => cases h
  | cons x xs ih =>
    cases r with
    | zero =>
      simp only [List.getElem?_cons_zero, Option.some_inj] at h
      subst h
      simp only [List.set_cons_zero, List.flatten_cons, List.countP_append]
      omega
    | succ r' =>
      simp only [List.getElem?_cons_succ] at h
      have := ih h
      simp only [List.set_cons_succ, List.flatten_cons, List.countP_append]
      omega

theorem setCell_eq {b : Board} {r : Nat} {row : List Int} (c : Nat) (v : Int)
    (hr : b[r]? = some row) :
    setCell b r c v = b.set r (row.set c v) := by
  simp only [setCell, hr]

theorem countP_setCell {b : Board} {r c : Nat} {w : Int} (p : Int → Bool) (v : Int)
    (h : getCellN b r c = some w) :
    (setCell b r c v).flatten.countP p + (if p w then 1 else 0)
      = b.flatten.countP p + (if p v then 1 else 0) := by
  obtain ⟨row, hr, hc⟩ := getCellN_some_parts h
  have h1 := countP_set_board p (row.set c v) hr
  have h2 := countP_set_list p v hc
  rw [setCell_eq c v hr]
  omega

theorem mem_flatten_setCell {b : Board} {r c : Nat} {v x : Int}
    (h : x ∈ (setCell b r c v).flatten) : x ∈ b.flatten ∨ x = v := by
  unfold setCell at h
  cases hr : b[r]? with
  | none => rw [hr] at h; exact Or.inl h
  | some row =>
    rw [hr] at h
    rcases List.mem_flatten.mp h with ⟨l, hl, hml⟩
    rcases List.mem_or_eq_of_mem_set hl with hl' | hl'
    · exact Or.inl (List.mem_flatten.mpr ⟨l, hl', hml⟩)
    · subst hl'
      rcases List.mem_or_eq_of_mem_set hml with hm' | hm'
      · exact Or.inl (List.mem_flatten.mpr ⟨row, List.getElem?_mem hr, hm'⟩)
      · exact Or.inr hm'

theorem getCellN_mem {b : Board} {r c : Nat} {w : Int} (h : getCellN b r c = some w) :
    w ∈ b.flatten := by
  obtain ⟨row, hr, hc⟩ := getCellN_some_parts h
  exact List.mem_flatten.mpr ⟨row, List.getElem?_mem hr, List.getElem?_mem hc⟩

theorem getCellN_decay (b : Board) (r c : Nat) :
    getCellN (decay b) r c = (getCellN b r c).map tick := by
  unfold decay getCellN
  rw [List.getElem?_map]
  cases b[r]? with
  | none => rfl
  | some row =>
    simp [List.getElem?_map]

theorem flatten_decay (b : Board) : (decay b).flatten = b.flatten.map tick := by
  unfold decay
  rw [List.map_flatten]

theorem countP_decay (p : Int → Bool) (b : Board) :
    (decay b).flatten.countP p = b.flatten.countP (fun v => p (tick v)) := by
  rw [flatten_decay, List.countP_map]
  rfl

theorem mem_flatten_decay {b : Board} {x : Int} (h : x ∈ (decay b).flatten) :
    ∃ y ∈ b.flatten, x = tick y := by
  rw [flatten_decay] at h
  rcases List.mem_map.mp h with ⟨y, hy, hxy⟩
  exact ⟨y, hy, hxy.symm⟩

theorem countCell_decay_pos {t : Int} (b : Board) (ht : 1 ≤ t) :
    countCell (decay b) t = countCell b (t + 1) := by
  unfold countCell
  rw [countP_decay]
  apply List.countP_congr
  intro v _
  unfold tick
  by_cases hv : 0 < v
  · simp only [if_pos hv]
    constructor <;> (intro h; simp only [decide_eq_true_eq] at *; omega)
  · simp only [if_neg hv]
    constructor <;> (intro h; simp only [decide_eq_true_eq] at *; omega)

theorem countCell_decay_negone (b : Board) :
    countCell (decay b) (-1) = countCell b (-1) := by
  unfold countCell
  rw [countP_decay]
  apply List.countP_congr
  intro v _
  unfold tick
  by_cases hv : 0 < v
  · simp only [if_pos hv]
    constructor <;> (intro h; simp only [decide_eq_true_eq] at *; omega)
  · simp only [if_neg hv]

theorem countP_split {p q r : Int → Bool}
    (hpq : ∀ v, r v = true ↔ (p v = true ∨ q v = true))
    (hdis : ∀ v, ¬(p v = true ∧ q v = true)) (l : List Int) :
    l.countP p + l.countP q = l.countP r := by
  induction l with
  | nil => rfl
  | cons a as ih =>
    simp only [List.countP_cons]
    have h1 := hpq a
    have h2 := hdis a
    by_cases hp : p a = true
    · have hq : ¬ q a = true := fun hq => h2 ⟨hp, hq⟩
      have hr : r a = true := h1.mpr (Or.inl hp)
      rw [if_pos hp, if_neg hq, if_pos hr]
      omega
    · by_cases hq : q a = true
      · have hr : r a = true := h1.mpr (Or.inr hq)
        rw [if_neg hp, if_pos hq, if_pos hr]
        omega
      · have hr : ¬ r a = true := fun hr => (h1.mp hr).elim hp hq
        rw [if_neg hp, if_neg hq, if_neg hr]
        omega

theorem countPos_decay (b : Board) :
    countPos (decay b) + countCell b 1 = countPos b := by
  unfold countPos countCell
  rw [countP_decay]
  apply countP_split
  · intro v
    unfold tick
    by_cases hv : 0 < v
    · simp only [if_pos hv]
      constructor <;> (intro h; simp only [decide_eq_true_eq] at *; omega)
    · simp only [if_neg hv]
      constructor <;> (intro h; simp only [decide_eq_true_eq] at *) <;> omega
  · intro v
    unfold tick
    by_cases hv : 0 < v
    · simp only [if_pos hv]
      intro h
      simp only [decide_eq_true_eq] at *
      omega
    · simp only [if_neg hv]
      intro h
      simp only [decide_eq_true_eq] at *
      omega

theorem countCell_eq_zero_of_gt {b : Board} {m t : Int}
    (hle : ∀ v ∈ b.flatten, v ≤ m) (hm : m < t) : countCell b t = 0 := by
  unfold countCell
  rw [List.countP_eq_zero]
  intro v hv
  have := hle v hv
  simp only [decide_eq_true_eq]
  omega

theorem countCell_pos_of_get {b : Board} {r c : Nat} {t : Int}
    (h : getCellN b r c = some t) : 1 ≤ countCell b t := by
  unfold countCell
  rw [Nat.one_le_iff_ne_zero, Ne, List.countP_eq_zero]
  intro hall
  exact hall t (getCellN_mem h) (by simp)

theorem placeRandomly_spec {g : Game} {value : Int} {picks rest : List (Nat × Nat)}
    {g' : Game} (h : placeRandomly g value picks = some (g', rest)) :
    g'.length = g.length ∧
      ∃ ri ci, getCellN g.board ri ci = some 0 ∧ g'.board = setCell g.board ri ci value := by
  induction picks with
  | nil => cases h
  | cons pk rst ih =>
    obtain ⟨ri, ci⟩ := pk
    unfold placeRandomly at h
    cases hr : g.board[ri]? with
    | none => rw [hr] at h; exact Option.noConfusion h
    | some row =>
      simp only [hr] at h
      cases hc : row[ci]? with
      | none => rw [hc] at h; exact Option.noConfusion h
      | some v =>
        simp only [hc] at h
        by_cases hv : v = 0
        · rw [if_pos hv] at h
          injection h with h'
          injection h' with h1 h2
          subst h1
          refine ⟨rfl, ri, ci, ?_, rfl⟩
          simp only [getCellN, hr, hc, hv]
        · rw [if_neg hv] at h
          exact ih h

theorem advance_wall {g : Game} {d : Direction} (picks : List (Nat × Nat))
    (h : ¬ inBounds g.board (newPos g d)) : advance g d picks = (.wall, g) := by
  simp only [advance, if_neg h]

theorem advance_oob {g : Game} {d : Direction} (picks : List (Nat × Nat))
    (h1 : inBounds g.board (newPos g d))
    (h2 : getCell g.board (newPos g d).1 (newPos g d).2 = none) :
    advance g d picks = (.oob, g) := by
  simp only [advance, if_pos h1, h2]

theorem advance_tail {g : Game} {d : Direction} {v : Int} (picks : List (Nat × Nat))
    (h1 : inBounds g.board (newPos g d))
    (h2 : getCell g.board (newPos g d).1 (newPos g d).2 = some v)
    (h3 : 0 < v) : advance g d picks = (.tail, g) := by
  simp only [advance, if_pos h1, h2, if_pos h3]

theorem advance_move {g : Game} {d : Direction} {v : Int} (picks : List (Nat × Nat))
    (h1 : inBounds g.board (newPos g d))
    (h2 : getCell g.board (newPos g d).1 (newPos g d).2 = some v)
    (h3 : ¬ 0 < v) (h4 : v ≠ -1) :
    advance g d picks
      = (.ok, ⟨setCell (decay g.board) (newPos g d).1.toNat (newPos g d).2.toNat g.length,
          g.length⟩) := by
  simp only [advance, if_pos h1, h2, if_neg h3, if_neg h4]

theorem advance_grow_some {g : Game} {d : Direction} {picks rest : List (Nat × Nat)} {g2 : Game}
    (h1 : inBounds g.board (newPos g d))
    (h2 : getCell g.board (newPos g d).1 (newPos g d).2 = some (-1))
    (hpl : placeRandomly
        ⟨setCell g.board (newPos g d).1.toNat (newPos g d).2.toNat (g.length + 1), g.length + 1⟩
        (-1) picks = some (g2, rest)) :
    advance g d picks = (.ok, g2) := by
  have h3 : ¬ (0 : Int) < -1 := by norm_num
  simp only [advance, if_pos h1, h2, if_neg h3, if_true, hpl]

theorem advance_grow_none {g : Game} {d : Direction} {picks : List (Nat × Nat)}
    (h1 : inBounds g.board (newPos g d))
    (h2 : getCell g.board (newPos g d).1 (newPos g d).2 = some (-1))
    (hpl : placeRandomly
        ⟨setCell g.board (newPos g d).1.toNat (newPos g d).2.toNat (g.length + 1), g.length + 1⟩
        (-1) picks = none) :
    advance g d picks
      = (.randFail,
          ⟨setCell g.board (newPos g d).1.toNat (newPos g d).2.toNat (g.length + 1),
            g.length + 1⟩) := by
  have h3 : ¬ (0 : Int) < -1 := by norm_num
  simp only [advance, if_pos h1, h2, if_neg h3, if_true, hpl]

/- Claim theorems. -/

/-- C4: whenever `advance` fails with a wall collision or a tail
collision, the resulting game is exactly the game before the call: every
board cell and the length field are unchanged. -/
theorem claim4_collision_leaves_game_unchanged (g : Game) (d : Direction)
    (picks : List (Nat × Nat))
    (h : (advance g d picks).1 = .wall ∨ (advance g d picks).1 = .tail) :
    (advance g d picks).2 = g := by
  by_cases h1 : inBounds g.board (newPos g d)
  · cases h2 : getCell g.board (newPos g d).1 (newPos g d).2 with
    | none => rw [advance_oob picks h1 h2]
    | some v =>
      by_cases h3 : 0 < v
      · rw [advance_tail picks h1 h2 h3]
      · by_cases h4 : v = -1
        · subst h4
          cases hpl : placeRandomly
              ⟨setCell g.board (newPos g d).1.toNat (newPos g d).2.toNat (g.length + 1),
                g.length + 1⟩ (-1) picks with
          | none =>
            rw [advance_grow_none h1 h2 hpl] at h
            simp at h
          | some pr =>
            obtain ⟨g2, rest⟩ := pr
            rw [advance_grow_some h1 h2 hpl] at h
            simp at h
        · rw [advance_move picks h1 h2 h3 h4] at h
          simp at h
  · rw [advance_wall picks h1]

/-- C4 witness: a concrete wall collision (head in a 1x1 board moving
north) leaves the game unchanged. -/
theorem claim4_collision_leaves_game_unchanged_witness :
    (advance ⟨[[1]], 1⟩ Direction.north []).2 = ⟨[[1]], 1⟩ :=
  claim4_collision_leaves_game_unchanged ⟨[[1]], 1⟩ Direction.north [] (by decide)

/-- C7: across any `advance` call, successful or failing, the length
either stays the same or increases by exactly 1, and the latter happens
only when the candidate head cell holds the target value -1 (a growth
step).  In particular the length is non-decreasing across any call
sequence. -/
theorem claim7_length_monotonic (g : Game) (d : Direction) (picks : List (Nat × Nat)) :
    (advance g d picks).2.length = g.length ∨
      ((advance g d picks).2.length = g.length + 1 ∧
        getCell g.board (newPos g d).1 (newPos g d).2 = some (-1)) := by
  by_cases h1 : inBounds g.board (newPos g d)
  · cases h2 : getCell g.board (newPos g d).1 (newPos g d).2 with
    | none => rw [advance_oob picks h1 h2]; exact Or.inl rfl
    | some v =>
      by_cases h3 : 0 < v
      · rw [advance_tail picks h1 h2 h3]; exact Or.inl rfl
      · by_cases h4 : v = -1
        · subst h4
          cases hpl : placeRandomly
              ⟨setCell g.board (newPos g d).1.toNat (newPos g d).2.toNat (g.length + 1),
                g.length + 1⟩ (-1) picks with
          | none =>
            rw [advance_grow_none h1 h2 hpl]
            exact Or.inr ⟨rfl, rfl⟩
          | some pr =>
            obtain ⟨g2, rest⟩ := pr
            rw [advance_grow_some h1 h2 hpl]
            exact Or.inr ⟨(placeRandomly_spec hpl).1, rfl⟩
        · rw [advance_move picks h1 h2 h3 h4]; exact Or.inl rfl
  · rw [advance_wall picks h1]; exact Or.inl rfl

/-- C10: `advance` is deterministic except for target placement: when the
candidate head cell does not hold -1, the outcome (status and resulting
game) is the same for every random pick sequence. -/
theorem claim10_deterministic_without_growth (g : Game) (d : Direction)
    (picks1 picks2 : List (Nat × Nat))
    (h : getCell g.board (newPos g d).1 (newPos g d).2 ≠ some (-1)) :
    advance g d picks1 = advance g d picks2 := by
  by_cases h1 : inBounds g.board (newPos g d)
  · cases h2 : getCell g.board (newPos g d).1 (newPos g d).2 with
    | none => rw [advance_oob picks1 h1 h2, advance_oob picks2 h1 h2]
    | some v =>
      by_cases h3 : 0 < v
      · rw [advance_tail picks1 h1 h2 h3, advance_tail picks2 h1 h2 h3]
      · have h4 : v ≠ -1 := fun hv => h (hv ▸ h2)
        rw [advance_move picks1 h1 h2 h3 h4, advance_move picks2 h1 h2 h3 h4]
  · rw [advance_wall picks1 h1, advance_wall picks2 h1]

/-- C10 witness: a concrete non-growth move gives the same result for two
different pick sequences. -/
theorem claim10_deterministic_without_growth_witness :
    advance ⟨[[1, 0]], 1⟩ Direction.east [] = advance ⟨[[1, 0]], 1⟩ Direction.east [(0, 0)] :=
  claim10_deterministic_without_growth ⟨[[1, 0]], 1⟩ Direction.east [] [(0, 0)] (by decide)

/-- C8: when `placeRandomly` returns, it has changed exactly one cell — a
cell that previously held 0 now holds the given value — and has left every
other cell, the board dimensions, and the length unchanged. -/
theorem claim8_placeRandomly_frame {g : Game} {value : Int}
    {picks rest : List (Nat × Nat)} {g' : Game}
    (h : placeRandomly g value picks = some (g', rest)) :
    g'.length = g.length ∧
      g'.board.length = g.board.length ∧
      (∀ i : Nat, (g'.board[i]?).map List.length = (g.board[i]?).map List.length) ∧
      ∃ ri ci, getCellN g.board ri ci = some 0 ∧
        getCellN g'.board ri ci = some value ∧
        ∀ i j, ¬(i = ri ∧ j = ci) → getCellN g'.board i j = getCellN g.board i j := by
  obtain ⟨hlen, ri, ci, hzero, hboard⟩ := placeRandomly_spec h
  refine ⟨hlen, ?_, ?_, ri, ci, hzero, ?_, ?_⟩
  · rw [hboard]; exact length_setCell g.board ri ci value
  · intro i; rw [hboard]; exact rowlen_setCell g.board ri ci value i
  · rw [hboard]; exact getCellN_setCell_self value hzero
  · intro i j hne
    rw [hboard]
    exact getCellN_setCell_other ri ci value (not_and_or.mp hne)

/-- C8 witness: placing -1 on the board [[1, 0]] with the pick (0,1). -/
theorem claim8_placeRandomly_frame_witness :
    gWit8'.length = gWit8.length ∧
      gWit8'.board.length = gWit8.board.length ∧
      (∀ i : Nat, (gWit8'.board[i]?).map List.length = (gWit8.board[i]?).map List.length) ∧
      ∃ ri ci, getCellN gWit8.board ri ci = some 0 ∧
        getCellN gWit8'.board ri ci = some (-1) ∧
        ∀ i j, ¬(i = ri ∧ j = ci) →
          getCellN gWit8'.board i j = getCellN gWit8.board i j :=
  @claim8_placeRandomly_frame gWit8 (-1) [(0, 1)] [] gWit8' rfl

theorem getCell_isSome_of_inBounds {b : Board} {p : Int × Int} (hrect : Rect b)
    (hin : inBounds b p) : ∃ v, getCell b p.1 p.2 = some v := by
  obtain ⟨h1, h2, h3, h4⟩ := hin
  unfold getCell
  rw [if_pos ⟨h1, h2⟩]
  have hr : p.1.toNat < b.length := by omega
  have hrow : b[p.1.toNat]? = some b[p.1.toNat] := List.getElem?_eq_getElem hr
  have hmem : b[p.1.toNat] ∈ b := List.getElem?_mem hrow
  have hlen : b[p.1.toNat].length = (b.headD []).length := hrect _ hmem
  have hc : p.2.toNat < b[p.1.toNat].length := by
    rw [hlen]; omega
  refine ⟨b[p.1.toNat][p.2.toNat], ?_⟩
  unfold getCellN
  rw [hrow]
  exact List.getElem?_eq_getElem hc

/-- C3: with a unique head on a rectangular board, `advance` fails with a
wall collision exactly when the candidate head position is out of bounds
(the wall check is decided first, so an out-of-bounds candidate is never a
tail collision), and an in-bounds candidate fails with a tail collision
exactly when its current cell value is strictly positive — including a
cell holding 1 that would expire this very tick. -/
theorem claim3_failure_conditions (g : Game) (d : Direction) (picks : List (Nat × Nat))
    (_hhead : countCell g.board g.length = 1) (hrect : Rect g.board) :
    ((advance g d picks).1 = .wall ↔ ¬ inBounds g.board (newPos g d)) ∧
    (inBounds g.board (newPos g d) →
      ∃ v, getCell g.board (newPos g d).1 (newPos g d).2 = some v ∧
        ((advance g d picks).1 = .tail ↔ 0 < v)) := by
  by_cases h1 : inBounds g.board (newPos g d)
  · obtain ⟨v, hv⟩ := getCell_isSome_of_inBounds hrect h1
    by_cases h3 : 0 < v
    · rw [advance_tail picks h1 hv h3]
      exact ⟨by simp [h1], fun _ => ⟨v, hv, by simp [h3]⟩⟩
    · by_cases h4 : v = -1
      · subst h4
        cases hpl : placeRandomly
            ⟨setCell g.board (newPos g d).1.toNat (newPos g d).2.toNat (g.length + 1),
              g.length + 1⟩ (-1) picks with
        | none =>
          rw [advance_grow_none h1 hv hpl]
          exact ⟨by simp [h1], fun _ => ⟨-1, hv, by simp [h3]⟩⟩
        | some pr =>
          obtain ⟨g2, rest⟩ := pr
          rw [advance_grow_some h1 hv hpl]
          exact ⟨by simp [h1], fun _ => ⟨-1, hv, by simp [h3]⟩⟩
      · rw [advance_move picks h1 hv h3 h4]
        exact ⟨by simp [h1], fun _ => ⟨v, hv, by simp [h3]⟩⟩
  · rw [advance_wall picks h1]
    exact ⟨by simp [h1], fun h1' => absurd h1' h1⟩

/-- C3 witness: moving west from the head of [[1, 2]] (length 2) hits the
tail cell holding 1, which would expire this same tick. -/
theorem claim3_failure_conditions_witness :
    ((advance ⟨[[1, 2]], 2⟩ Direction.west []).1 = .wall
        ↔ ¬ inBounds (Game.board ⟨[[1, 2]], 2⟩) (newPos ⟨[[1, 2]], 2⟩ Direction.west)) ∧
    (inBounds (Game.board ⟨[[1, 2]], 2⟩) (newPos ⟨[[1, 2]], 2⟩ Direction.west) →
      ∃ v, getCell (Game.board ⟨[[1, 2]], 2⟩) (newPos ⟨[[1, 2]], 2⟩ Direction.west).1
            (newPos ⟨[[1, 2]], 2⟩ Direction.west).2 = some v ∧
        ((advance ⟨[[1, 2]], 2⟩ Direction.west []).1 = .tail ↔ 0 < v)) :=
  claim3_failure_conditions ⟨[[1, 2]], 2⟩ Direction.west [] (by decide) (by decide)

/-- C9: on a non-empty rectangular board that contains a head cell,
`advance` never performs an out-of-bounds board access: once the wall
check passes, every cell read and write is within the grid. -/
theorem claim9_no_out_of_bounds (g : Game) (d : Direction) (picks : List (Nat × Nat))
    (hrect : Rect g.board) (_hpos : 0 < (g.board.headD []).length)
    (_hhead : g.length ∈ g.board.flatten) :
    (advance g d picks).1 ≠ .oob := by
  by_cases h1 : inBounds g.board (newPos g d)
  · obtain ⟨v, hv⟩ := getCell_isSome_of_inBounds hrect h1
    by_cases h3 : 0 < v
    · rw [advance_tail picks h1 hv h3]
      simp
    · by_cases h4 : v = -1
      · subst h4
        cases hpl : placeRandomly
            ⟨setCell g.board (newPos g d).1.toNat (newPos g d).2.toNat (g.length + 1),
              g.length + 1⟩ (-1) picks with
        | none =>
          rw [advance_grow_none h1 hv hpl]
          simp
        | some pr =>
          obtain ⟨g2, rest⟩ := pr
          rw [advance_grow_some h1 hv hpl]
          simp
      · rw [advance_move picks h1 hv h3 h4]
        simp
  · rw [advance_wall picks h1]
    simp

/-- C9 witness: on the rectangular board [[1, 0]] a move east performs no
out-of-bounds access. -/
theorem claim9_no_out_of_bounds_witness :
    (advance ⟨[[1, 0]], 1⟩ Direction.east []).1 ≠ .oob :=
  claim9_no_out_of_bounds ⟨[[1, 0]], 1⟩ Direction.east [] (by decide) (by decide) (by decide)

theorem countPos_setCell_zero_pos {b : Board} {r c : Nat} {len : Int}
    (h0 : getCellN b r c = some 0) (hlen : 0 < len) :
    countPos (setCell b r c len) = countPos b + 1 := by
  have h5 := countP_setCell (fun v => decide (0 < v)) len h0
  unfold countPos
  simp only [decide_eq_true_eq] at h5
  rw [if_neg (show ¬ (0 : Int) < 0 by norm_num), if_pos hlen] at h5
  omega

theorem getCell_toN {b : Board} {r c : Int} {v : Int} (hr : 0 ≤ r) (hc : 0 ≤ c)
    (h : getCell b r c = some v) : getCellN b r.toNat c.toNat = some v := by
  unfold getCell at h
  rw [if_pos ⟨hr, hc⟩] at h
  exact h

/-- C1 counterexample: the game with board [[2, 0]] and length 2 satisfies
all of the claim's hypotheses (unique head cell, candidate in bounds with
value 0), the move east succeeds, yet the number of occupied cells grows
from 1 to 2 — no cell held the value 1, so the decay step freed no cell
while the head write occupied a new one.  The occupied-cell count is
therefore not preserved under the claim's hypotheses alone. -/
theorem claim1_counterexample :
    countCell (Game.board ⟨[[2, 0]], 2⟩) (Game.length ⟨[[2, 0]], 2⟩) = 1 ∧
    inBounds (Game.board ⟨[[2, 0]], 2⟩) (newPos ⟨[[2, 0]], 2⟩ Direction.east) ∧
    getCell (Game.board ⟨[[2, 0]], 2⟩) (newPos ⟨[[2, 0]], 2⟩ Direction.east).1
      (newPos ⟨[[2, 0]], 2⟩ Direction.east).2 = some 0 ∧
    (advance ⟨[[2, 0]], 2⟩ Direction.east []).1 = .ok ∧
    (advance ⟨[[2, 0]], 2⟩ Direction.east []).2.length = 2 ∧
    countPos (Game.board ⟨[[2, 0]], 2⟩) = 1 ∧
    countPos (advance ⟨[[2, 0]], 2⟩ Direction.east []).2.board = 2 := by
  decide

/-- C1 (amended): an ordinary move — unique head, candidate in bounds
holding 0 — succeeds, decreases every positive cell by exactly 1 (cells at
1 becoming 0), then sets the candidate cell to `game.length`; the length
is unchanged.  Amended: the occupied-cell count is preserved provided
additionally the length is at least 1 and exactly one cell holds the value
1 (as in any state reachable from `init`); the other conclusions need no
extra hypotheses. -/
theorem claim1_ordinary_move (g : Game) (d : Direction) (picks : List (Nat × Nat))
    (_hhead : countCell g.board g.length = 1)
    (hin : inBounds g.board (newPos g d))
    (hcand : getCell g.board (newPos g d).1 (newPos g d).2 = some 0) :
    (advance g d picks).1 = .ok ∧
    (advance g d picks).2.length = g.length ∧
    (advance g d picks).2.board
      = setCell (decay g.board) (newPos g d).1.toNat (newPos g d).2.toNat g.length ∧
    (∀ i j : Nat, ¬(i = (newPos g d).1.toNat ∧ j = (newPos g d).2.toNat) →
      getCellN (advance g d picks).2.board i j = (getCellN g.board i j).map tick) ∧
    getCellN (advance g d picks).2.board (newPos g d).1.toNat (newPos g d).2.toNat
      = some g.length ∧
    (1 ≤ g.length → countCell g.board 1 = 1 →
      countPos (advance g d picks).2.board = countPos g.board) := by
  have h3 : ¬ (0 : Int) < 0 := by norm_num
  have h4 : (0 : Int) ≠ -1 := by norm_num
  rw [advance_move picks hin hcand h3 h4]
  have hnr : 0 ≤ (newPos g d).1 := hin.1
  have hnc : 0 ≤ (newPos g d).2 := hin.2.1
  have hcandN : getCellN g.board (newPos g d).1.toNat (newPos g d).2.toNat = some 0 :=
    getCell_toN hnr hnc hcand
  have hdecay0 : getCellN (decay g.board) (newPos g d).1.toNat (newPos g d).2.toNat
      = some 0 := by
    rw [getCellN_decay, hcandN]
    simp [tick]
  refine ⟨rfl, rfl, rfl, ?_, ?_, ?_⟩
  · intro i j hne
    rw [getCellN_setCell_other _ _ _ (not_and_or.mp hne), getCellN_decay]
  · rw [getCellN_setCell_self g.length hdecay0]
  · intro hlen hone
    have h5 := countPos_setCell_zero_pos hdecay0 (show (0 : Int) < g.length by omega)
    have h6 := countPos_decay g.board
    show countPos (setCell (decay g.board) (newPos g d).1.toNat (newPos g d).2.toNat g.length)
      = countPos g.board
    omega

/-- C1 witness: the amended ordinary-move theorem applied to the board
[[1, 2, 0]] with length 2, moving east into the empty cell. -/
theorem claim1_ordinary_move_witness :
    (advance gWit1 Direction.east []).1 = .ok ∧
    (advance gWit1 Direction.east []).2.length = gWit1.length ∧
    (advance gWit1 Direction.east []).2.board
      = setCell (decay gWit1.board) (newPos gWit1 Direction.east).1.toNat
          (newPos gWit1 Direction.east).2.toNat gWit1.length ∧
    (∀ i j : Nat, ¬(i = (newPos gWit1 Direction.east).1.toNat
        ∧ j = (newPos gWit1 Direction.east).2.toNat) →
      getCellN (advance gWit1 Direction.east []).2.board i j
        = (getCellN gWit1.board i j).map tick) ∧
    getCellN (advance gWit1 Direction.east []).2.board
        (newPos gWit1 Direction.east).1.toNat (newPos gWit1 Direction.east).2.toNat
      = some gWit1.length ∧
    (1 ≤ gWit1.length → countCell gWit1.board 1 = 1 →
      countPos (advance gWit1 Direction.east []).2.board = countPos gWit1.board) :=
  claim1_ordinary_move gWit1 Direction.east [] (by decide) (by decide) (by decide)

theorem countCell_setCell {b : Board} {r c : Nat} {w : Int} (v t : Int)
    (h : getCellN b r c = some w) :
    countCell (setCell b r c v) t + (if w = t then 1 else 0)
      = countCell b t + (if v = t then 1 else 0) := by
  have h5 := countP_setCell (fun x => decide (x = t)) v h
  unfold countCell
  simp only [decide_eq_true_eq] at h5
  exact h5

/-- C2 counterexample: the game with board [[1, -1, -1, 0]] and length 1
satisfies the claim's hypotheses (unique head, candidate in bounds holding
-1), the step succeeds, yet two cells hold -1 afterwards — the claim's
"exactly one cell holds -1 immediately afterwards" fails because the
board already carried a second target before the step. -/
theorem claim2_counterexample :
    countCell (Game.board ⟨[[1, -1, -1, 0]], 1⟩) (Game.length ⟨[[1, -1, -1, 0]], 1⟩) = 1 ∧
    inBounds (Game.board ⟨[[1, -1, -1, 0]], 1⟩)
      (newPos ⟨[[1, -1, -1, 0]], 1⟩ Direction.east) ∧
    getCell (Game.board ⟨[[1, -1, -1, 0]], 1⟩)
      (newPos ⟨[[1, -1, -1, 0]], 1⟩ Direction.east).1
      (newPos ⟨[[1, -1, -1, 0]], 1⟩ Direction.east).2 = some (-1) ∧
    (advance ⟨[[1, -1, -1, 0]], 1⟩ Direction.east [(0, 3)]).1 = .ok ∧
    countCell (advance ⟨[[1, -1, -1, 0]], 1⟩ Direction.east [(0, 3)]).2.board (-1) = 2 := by
  decide

/-- C2 (amended): a successful growth step — unique head, candidate in
bounds holding -1 — increments the length by 1, writes the new length into
the candidate cell, places the new target on a previously empty cell so
that exactly one cell holds -1 afterwards (hence it is distinct from every
snake cell), and performs no tail decay: every positive cell keeps its
value.  Amended: additionally assumes the candidate is the only cell
holding -1 before the step and that the length is at least 1 (both hold in
any state reachable from `init`). -/
theorem claim2_growth_step (g : Game) (d : Direction) (picks : List (Nat × Nat))
    (_hhead : countCell g.board g.length = 1)
    (hlen : 1 ≤ g.length)
    (htgt : countCell g.board (-1) = 1)
    (hin : inBounds g.board (newPos g d))
    (hcand : getCell g.board (newPos g d).1 (newPos g d).2 = some (-1))
    (hok : (advance g d picks).1 = .ok) :
    (advance g d picks).2.length = g.length + 1 ∧
    getCellN (advance g d picks).2.board (newPos g d).1.toNat (newPos g d).2.toNat
      = some (g.length + 1) ∧
    countCell (advance g d picks).2.board (-1) = 1 ∧
    (∃ ti tj : Nat, getCellN (advance g d picks).2.board ti tj = some (-1) ∧
      getCellN g.board ti tj = some 0) ∧
    (∀ i j : Nat, ∀ v : Int, getCellN g.board i j = some v → 0 < v →
      getCellN (advance g d picks).2.board i j = some v) := by
  cases hpl : placeRandomly
      ⟨setCell g.board (newPos g d).1.toNat (newPos g d).2.toNat (g.length + 1),
        g.length + 1⟩ (-1) picks with
  | none =>
    rw [advance_grow_none hin hcand hpl] at hok
    simp at hok
  | some pr =>
    obtain ⟨g2, rest⟩ := pr
    rw [advance_grow_some hin hcand hpl]
    obtain ⟨hg2len, ti, tj, htz, hg2b⟩ := placeRandomly_spec hpl
    have hg2len' : g2.length = g.length + 1 := hg2len
    have htz' : getCellN
        (setCell g.board (newPos g d).1.toNat (newPos g d).2.toNat (g.length + 1)) ti tj
        = some 0 := htz
    have hg2b' : g2.board
        = setCell
            (setCell g.board (newPos g d).1.toNat (newPos g d).2.toNat (g.length + 1))
            ti tj (-1) := hg2b
    have hcandN : getCellN g.board (newPos g d).1.toNat (newPos g d).2.toNat
        = some (-1) := getCell_toN hin.1 hin.2.1 hcand
    have hb1cand : getCellN
        (setCell g.board (newPos g d).1.toNat (newPos g d).2.toNat (g.length + 1))
        (newPos g d).1.toNat (newPos g d).2.toNat = some (g.length + 1) :=
      getCellN_setCell_self (g.length + 1) hcandN
    have hne : ¬(ti = (newPos g d).1.toNat ∧ tj = (newPos g d).2.toNat) := by
      rintro ⟨rfl, rfl⟩
      have h0 : some (0 : Int) = some (g.length + 1) := htz'.symm.trans hb1cand
      injection h0 with h0'
      omega
    refine ⟨hg2len', ?_, ?_, ⟨ti, tj, ?_, ?_⟩, ?_⟩
    · rw [hg2b',
        getCellN_setCell_other ti tj (-1) ((not_and_or.mp hne).imp Ne.symm Ne.symm)]
      exact hb1cand
    · have c1 := countCell_setCell (g.length + 1) (-1) hcandN
      rw [if_pos rfl, if_neg (show ¬ g.length + 1 = -1 by omega)] at c1
      have c2 := countCell_setCell (-1) (-1) htz'
      rw [if_neg (show ¬ (0 : Int) = -1 by norm_num), if_pos rfl] at c2
      rw [hg2b']
      omega
    · rw [hg2b']
      exact getCellN_setCell_self (-1) htz'
    · have h9 := @getCellN_setCell_other g.board (newPos g d).1.toNat
        (newPos g d).2.toNat (g.length + 1) ti tj (not_and_or.mp hne)
      rw [← h9]
      exact htz'
    · intro i j v hij hv
      have hne1 : ¬(i = (newPos g d).1.toNat ∧ j = (newPos g d).2.toNat) := by
        rintro ⟨rfl, rfl⟩
        have h0 : some v = some (-1 : Int) := hij.symm.trans hcandN
        injection h0 with h0'
        omega
      have hb1 : getCellN
          (setCell g.board (newPos g d).1.toNat (newPos g d).2.toNat (g.length + 1)) i j
          = some v := by
        rw [getCellN_setCell_other _ _ _ (not_and_or.mp hne1)]
        exact hij
      have hne2 : ¬(i = ti ∧ j = tj) := by
        rintro ⟨rfl, rfl⟩
        have h0 : some (0 : Int) = some v := htz'.symm.trans hb1
        injection h0 with h0'
        omega
      rw [hg2b', getCellN_setCell_other _ _ _ (not_and_or.mp hne2)]
      exact hb1

/-- C2 witness: the amended growth theorem applied to the board
[[1, -1, 0]] with length 1, moving east onto the target, the new target
landing on the empty cell. -/
theorem claim2_growth_step_witness :
    (advance gWit2 Direction.east [(0, 2)]).2.length = gWit2.length + 1 ∧
    getCellN (advance gWit2 Direction.east [(0, 2)]).2.board
        (newPos gWit2 Direction.east).1.toNat (newPos gWit2 Direction.east).2.toNat
      = some (gWit2.length + 1) ∧
    countCell (advance gWit2 Direction.east [(0, 2)]).2.board (-1) = 1 ∧
    (∃ ti tj : Nat,
      getCellN (advance gWit2 Direction.east [(0, 2)]).2.board ti tj = some (-1) ∧
      getCellN gWit2.board ti tj = some 0) ∧
    (∀ i j : Nat, ∀ v : Int, getCellN gWit2.board i j = some v → 0 < v →
      getCellN (advance gWit2 Direction.east [(0, 2)]).2.board i j = some v) :=
  claim2_growth_step gWit2 Direction.east [(0, 2)] (by decide) (by decide) (by decide)
    (by decide) (by decide) (by decide)

theorem mem_flatten_replicate {w h : Nat} {v : Int}
    (hm : v ∈ (List.replicate h (List.replicate w (0 : Int))).flatten) : v = 0 := by
  rcases List.mem_flatten.mp hm with ⟨row, hrow, hv⟩
  rw [List.eq_of_mem_replicate hrow] at hv
  exact List.eq_of_mem_replicate hv

theorem countCell_replicate_zero {w h : Nat} {t : Int} (ht : t ≠ 0) :
    countCell (List.replicate h (List.replicate w (0 : Int))) t = 0 := by
  unfold countCell
  rw [List.countP_eq_zero]
  intro v hv
  rw [mem_flatten_replicate hv]
  simp only [decide_eq_true_eq]
  exact fun h0 => ht h0.symm

theorem init_spec {w h : Nat} {picks : List (Nat × Nat)} {g : Game}
    (hinit : init w h picks = some g) :
    g.board.length = h ∧
    (∀ row ∈ g.board, row.length = w) ∧
    g.length = 1 ∧
    countCell g.board 1 = 1 ∧
    countCell g.board (-1) = 1 ∧
    (∀ v ∈ g.board.flatten, v = -1 ∨ v = 0 ∨ v = 1) := by
  simp only [init] at hinit
  cases hp1 : placeRandomly ⟨List.replicate h (List.replicate w (0 : Int)), 1⟩ 1 picks with
  | none =>
    rw [hp1] at hinit
    exact Option.noConfusion hinit
  | some pr1 =>
    obtain ⟨g1, rest1⟩ := pr1
    simp only [hp1] at hinit
    cases hp2 : placeRandomly g1 (-1) rest1 with
    | none =>
      simp only [hp2] at hinit
      exact Option.noConfusion hinit
    | some pr2 =>
      obtain ⟨g2, rest2⟩ := pr2
      simp only [hp2] at hinit
      have hg : g = g2 := (Option.some_inj.mp hinit).symm
      subst hg
      obtain ⟨hlen1, r1, c1, hz1, hb1⟩ := placeRandomly_spec hp1
      obtain ⟨hlen2, r2, c2, hz2, hb2⟩ := placeRandomly_spec hp2
      have hlen1' : g1.length = 1 := hlen1
      have hb1' : g1.board
          = setCell (List.replicate h (List.replicate w (0 : Int))) r1 c1 1 := hb1
      have hz1' : getCellN (List.replicate h (List.replicate w (0 : Int))) r1 c1
          = some 0 := hz1
      have hz2' : getCellN g1.board r2 c2 = some 0 := hz2
      have hb2' : g.board = setCell g1.board r2 c2 (-1) := hb2
      refine ⟨?_, ?_, ?_, ?_, ?_, ?_⟩
      · rw [hb2', length_setCell, hb1', length_setCell]
        exact List.length_replicate h _
      · intro row hrow
        rcases List.mem_iff_getElem?.mp hrow with ⟨i, hi⟩
        have e1 := rowlen_setCell g1.board r2 c2 (-1) i
        have e2 := rowlen_setCell (List.replicate h (List.replicate w (0 : Int))) r1 c1 1 i
        rw [← hb2'] at e1
        rw [← hb1'] at e2
        rw [hi] at e1
        rw [e2] at e1
        cases hrep : (List.replicate h (List.replicate w (0 : Int)))[i]? with
        | none => rw [hrep] at e1; exact Option.noConfusion e1
        | some row0 =>
          rw [hrep] at e1
          simp only [Option.map_some'] at e1
          have : row0.length = w := by
            rw [List.getElem?_replicate] at hrep
            by_cases hlt : i < h
            · rw [if_pos hlt] at hrep
              have := Option.some_inj.mp hrep
              rw [← this]
              exact List.length_replicate w _
            · rw [if_neg hlt] at hrep
              exact Option.noConfusion hrep
          have e3 : some row.length = some row0.length := e1
          rw [Option.some_inj.mp e3, this]
      · rw [hlen2, hlen1']
      · have c1count := countCell_setCell 1 1 hz1'
        rw [if_neg (show (0 : Int) ≠ 1 by norm_num), if_pos rfl] at c1count
        rw [← hb1'] at c1count
        have c2count := countCell_setCell (-1) 1 hz2'
        rw [if_neg (show (0 : Int) ≠ 1 by norm_num),
          if_neg (show (-1 : Int) ≠ 1 by norm_num)] at c2count
        rw [← hb2'] at c2count
        have hrep0 : countCell (List.replicate h (List.replicate w (0 : Int))) 1 = 0 :=
          countCell_replicate_zero (by norm_num)
        omega
      · have c1count := countCell_setCell 1 (-1) hz1'
        rw [if_neg (show (0 : Int) ≠ -1 by norm_num),
          if_neg (show (1 : Int) ≠ -1 by norm_num)] at c1count
        rw [← hb1'] at c1count
        have c2count := countCell_setCell (-1) (-1) hz2'
        rw [if_neg (show (0 : Int) ≠ -1 by norm_num), if_pos rfl] at c2count
        rw [← hb2'] at c2count
        have hrep0 : countCell (List.replicate h (List.replicate w (0 : Int))) (-1) = 0 :=
          countCell_replicate_zero (by norm_num)
        omega
      · intro v hv
        rw [hb2'] at hv
        rcases mem_flatten_setCell hv with hv1 | hv1
        · rw [hb1'] at hv1
          rcases mem_flatten_setCell hv1 with hv2 | hv2
          · exact Or.inr (Or.inl (mem_flatten_replicate hv2))
          · exact Or.inr (Or.inr hv2)
        · exact Or.inl hv1

/-- C6: `init width height` (in the source `height` defaults to `width`)
produces a board of exactly `height` rows of exactly `width` columns with
length 1, and — the board having at least two cells — exactly one cell
holds 1, exactly one cell holds -1 (hence they are two different cells),
and every other cell holds 0. -/
theorem claim6_init_placement (w h : Nat) (picks : List (Nat × Nat)) (g : Game)
    (_hw2 : 2 ≤ w * h) (hinit : init w h picks = some g) :
    g.board.length = h ∧
    (∀ row ∈ g.board, row.length = w) ∧
    g.length = 1 ∧
    countCell g.board 1 = 1 ∧
    countCell g.board (-1) = 1 ∧
    (∀ v ∈ g.board.flatten, v = -1 ∨ v = 0 ∨ v = 1) :=
  init_spec hinit

/-- C6 witness: init on a 2x1 board with picks (0,0) and (0,1). -/
theorem claim6_init_placement_witness :
    gWit6.board.length = 1 ∧
    (∀ row ∈ gWit6.board, row.length = 2) ∧
    gWit6.length = 1 ∧
    countCell gWit6.board 1 = 1 ∧
    countCell gWit6.board (-1) = 1 ∧
    (∀ v ∈ gWit6.board.flatten, v = -1 ∨ v = 0 ∨ v = 1) :=
  claim6_init_placement 2 1 [(0, 0), (0, 1)] gWit6 (by decide) (by decide)

theorem tick_le (v : Int) : tick v ≤ v := by
  unfold tick
  split <;> omega

theorem snakeInv_init {w h : Nat} {picks : List (Nat × Nat)} {g : Game}
    (hinit : init w h picks = some g) : SnakeInv g := by
  obtain ⟨-, -, hlen, h1c, hm1c, hvals⟩ := init_spec hinit
  refine ⟨?_, ?_, ?_, ?_⟩
  · rw [hlen]
    exact h1c
  · rw [hm1c]
  · rw [hlen]
  · intro v hv
    rcases hvals v hv with h | h | h <;> rw [hlen] <;> omega

theorem snakeInv_preserved {g g' : Game} {d : Direction} {picks : List (Nat × Nat)}
    (hadv : advance g d picks = (.ok, g')) (hInv : SnakeInv g) : SnakeInv g' := by
  obtain ⟨hhead, htgt, hlen, hbound⟩ := hInv
  by_cases h1 : inBounds g.board (newPos g d)
  · cases h2 : getCell g.board (newPos g d).1 (newPos g d).2 with
    | none =>
      rw [advance_oob picks h1 h2] at hadv
      simp at hadv
    | some v =>
      by_cases h3 : 0 < v
      · rw [advance_tail picks h1 h2 h3] at hadv
        simp at hadv
      · by_cases h4 : v = -1
        · subst h4
          cases hpl : placeRandomly
              ⟨setCell g.board (newPos g d).1.toNat (newPos g d).2.toNat (g.length + 1),
                g.length + 1⟩ (-1) picks with
          | none =>
            rw [advance_grow_none h1 h2 hpl] at hadv
            simp at hadv
          | some pr =>
            obtain ⟨g2, rest⟩ := pr
            rw [advance_grow_some h1 h2 hpl] at hadv
            injection hadv with h5 h6
            subst h6
            obtain ⟨hg2len, ti, tj, htz, hg2b⟩ := placeRandomly_spec hpl
            have hg2len' : g2.length = g.length + 1 := hg2len
            have htz' : getCellN
                (setCell g.board (newPos g d).1.toNat (newPos g d).2.toNat (g.length + 1))
                ti tj = some 0 := htz
            have hg2b' : g2.board
                = setCell
                    (setCell g.board (newPos g d).1.toNat (newPos g d).2.toNat
                      (g.length + 1)) ti tj (-1) := hg2b
            have hcandN : getCellN g.board (newPos g d).1.toNat (newPos g d).2.toNat
                = some (-1) := getCell_toN h1.1 h1.2.1 h2
            have hz : countCell g.board (g.length + 1) = 0 :=
              countCell_eq_zero_of_gt hbound (by omega)
            have c1 := countCell_setCell (g.length + 1) (g.length + 1) hcandN
            rw [if_neg (show ¬ (-1 : Int) = g.length + 1 by omega), if_pos rfl] at c1
            have c2 := countCell_setCell (-1) (g.length + 1) htz'
            rw [if_neg (show ¬ (0 : Int) = g.length + 1 by omega),
              if_neg (show ¬ (-1 : Int) = g.length + 1 by omega)] at c2
            have htgt1 : 1 ≤ countCell g.board (-1) := countCell_pos_of_get hcandN
            have c3 := countCell_setCell (g.length + 1) (-1) hcandN
            rw [if_pos rfl, if_neg (show ¬ g.length + 1 = -1 by omega)] at c3
            have c4 := countCell_setCell (-1) (-1) htz'
            rw [if_neg (show ¬ (0 : Int) = -1 by norm_num), if_pos rfl] at c4
            refine ⟨?_, ?_, ?_, ?_⟩
            · rw [hg2len', hg2b']
              omega
            · rw [hg2b']
              omega
            · rw [hg2len']
              omega
            · intro x hx
              rw [hg2b'] at hx
              rw [hg2len']
              rcases mem_flatten_setCell hx with hx1 | hx1
              · rcases mem_flatten_setCell hx1 with hx2 | hx2
                · have := hbound x hx2
                  omega
                · omega
              · omega
        · rw [advance_move picks h1 h2 h3 h4] at hadv
          injection hadv with h5 h6
          subst h6
          have hcandN : getCellN g.board (newPos g d).1.toNat (newPos g d).2.toNat
              = some v := getCell_toN h1.1 h1.2.1 h2
          have hdecayv : getCellN (decay g.board)
              (newPos g d).1.toNat (newPos g d).2.toNat = some v := by
            rw [getCellN_decay, hcandN]
            simp [tick, h3]
          have hzdecay : countCell (decay g.board) g.length = 0 := by
            rw [countCell_decay_pos _ hlen]
            exact countCell_eq_zero_of_gt hbound (by omega)
          have c1 := countCell_setCell g.length g.length hdecayv
          rw [if_neg (show ¬ v = g.length by omega), if_pos rfl] at c1
          have c2 := countCell_setCell g.length (-1) hdecayv
          rw [if_neg h4, if_neg (show ¬ g.length = -1 by omega)] at c2
          have hdm1 : countCell (decay g.board) (-1) = countCell g.board (-1) :=
            countCell_decay_negone g.board
          refine ⟨?_, ?_, hlen, ?_⟩
          · show countCell
              (setCell (decay g.board) (newPos g d).1.toNat (newPos g d).2.toNat g.length)
              g.length = 1
            omega
          · show countCell
              (setCell (decay g.board) (newPos g d).1.toNat (newPos g d).2.toNat g.length)
              (-1) ≤ 1
            omega
          · intro x hx
            have hx' : x ∈ (setCell (decay g.board)
                (newPos g d).1.toNat (newPos g d).2.toNat g.length).flatten := hx
            show x ≤ g.length
            rcases mem_flatten_setCell hx' with hx1 | hx1
            · rcases mem_flatten_decay hx1 with ⟨y, hy, hxy⟩
              have h8 := hbound y hy
              have h9 := tick_le y
              omega
            · omega
  · rw [advance_wall picks h1] at hadv
    simp at hadv

/-- C5: starting from any state produced by `init`, after any sequence of
successful `advance` calls exactly one board cell holds the value
`game.length` (the head) and at most one cell holds -1 (the target). -/
theorem claim5_head_target_invariant (w h : Nat) (picks : List (Nat × Nat))
    (g0 g : Game) (hinit : init w h picks = some g0) (hreach : Reaches g0 g) :
    countCell g.board g.length = 1 ∧ countCell g.board (-1) ≤ 1 := by
  have hInv : SnakeInv g := by
    induction hreach with
    | refl => exact snakeInv_init hinit
    | step d picks' hr hadv ih => exact snakeInv_preserved hadv ih
  exact ⟨hInv.1, hInv.2.1⟩

/-- C5 witness: the freshly initialised 2x1 game. -/
theorem claim5_head_target_invariant_witness :
    countCell gWit5.board gWit5.length = 1 ∧ countCell gWit5.board (-1) ≤ 1 :=
  claim5_head_target_invariant 2 1 [(0, 0), (0, 1)] gWit5 gWit5 (by decide)
    (Reaches.refl gWit5)
